import Mathlib

/-!
Verification of the upload-application server (Fastify + Google Cloud Storage).

The development shallowly embeds the server's current revision (the one whose
route handlers are marked FIXED and are per-user):

* string primitives used by the routes: JavaScript `String.prototype.replace`
  with a string pattern (first occurrence only), `String.prototype.startsWith`
  and `endsWith`, and Node `path.basename` / `path.extname` (posix);
* the WebSocket connection map (`connections = new Map<string, any>()`), the
  `/ws` open and close handlers, and the `setTimeout`-based upload
  notification, as a step function over event traces;
* the image route handlers (`GET /api/images`, `POST /api/images`,
  `DELETE /api/images/:filename`), the auth routes behind
  `ensureAuthenticated`, and the preHandler dispatch.

Object storage is modelled as the list of object names in the bucket; a
signed URL is modelled by the arguments the code hands to `getSignedUrl`
(object name, action, expiry timestamp).
-/
namespace UploadApp

-- --- DEFINITIONS ---

/-- JavaScript strings, modelled as lists of characters. -/
abbrev JStr := List Char

/-- Model of JavaScript `s.startsWith(p)`. -/
def startsWithStr : JStr → JStr → Bool
  | _, [] => true
  | [], _ :: _ => false
  | c :: s, a :: pa => c == a && startsWithStr s pa

/-- Model of JavaScript `s.includes(pat)`:
some suffix of `s` starts with `pat`. -/
def containsSub (pat : JStr) : JStr → Bool
  | [] => startsWithStr [] pat
  | c :: rest => startsWithStr (c :: rest) pat || containsSub pat rest

/-- Model of JavaScript `s.replace(pat, repl)` with a
string `pat`: only the first occurrence of `pat` is replaced; `s` is returned
unchanged when `pat` does not occur. -/
def replaceFirst (pat repl : JStr) : JStr → JStr
  | [] => if startsWithStr [] pat then repl else []
  | c :: rest =>
    if startsWithStr (c :: rest) pat then repl ++ (c :: rest).drop pat.length
    else c :: replaceFirst pat repl rest

/-- Model of JavaScript `s.endsWith` applied to a slash. -/
def endsWithSlash (s : JStr) : Bool := s.getLast? == some '/'

/-- Model of Node `path.posix.basename` (no extension argument): strip
trailing separators, then keep the part after the last separator. -/
def basename (p : JStr) : JStr :=
  ((p.reverse.dropWhile (fun c => c == '/')).takeWhile (fun c => !(c == '/'))).reverse

/-- Model of Node `path.posix.extname`: the extension of the final path
component, from its last dot to the end; empty when the component has no dot,
when the dot is its first character, or for the component `..`. -/
def extname (p : JStr) : JStr :=
  let b := (p.reverse.takeWhile (fun c => !(c == '/'))).reverse
  if b == ['.', '.'] then []
  else
    let revB := b.reverse
    let afterDot := revB.takeWhile (fun c => !(c == '.'))
    if afterDot.length == revB.length then []
    else if afterDot.length + 1 == revB.length then []
    else '.' :: afterDot.reverse

/-- The leading path segment of an object name: the characters before the
first separator. Used only to reason about tenant ownership of names. -/
def firstSeg (n : JStr) : JStr := n.takeWhile (fun c => !(c == '/'))

/-- The `interface UserProfile` from the server source (emails omitted: the image
routes and the connection map use only `id`; `displayName` is only logged). -/
structure UserProfile where
  id : JStr
  displayName : JStr
deriving DecidableEq

/-- The fastify session: `Session.user?: UserProfile`. -/
structure Session where
  user : Option UserProfile
deriving DecidableEq

/-- The `action` argument of `getSignedUrl`; every call in the source passes
`action: 'read'`. -/
inductive UrlAction where
  | read
deriving DecidableEq

/-- A signed URL, modelled by the arguments the source hands to
`file.getSignedUrl({version: 'v4', action, expires})`: which object it grants
access to, the action, and the expiry timestamp in ms. -/
structure SignedUrl where
  objectName : JStr
  action : UrlAction
  expires : Int
deriving DecidableEq

/-- One element of the `GET /api/images` response:
`{ thumbnailUrl: thumbUrl, fullUrl }`. -/
structure ImagePair where
  thumbnailUrl : SignedUrl
  fullUrl : SignedUrl
deriving DecidableEq

/-- The multipart file object returned by `request.file()` when a file part is
present. -/
structure MultipartData where
  filename : JStr
  truncated : Bool
  mimetype : JStr
deriving DecidableEq

/-- The notification scheduled by the `setTimeout` call in `POST /api/images`:
delay in ms, the session user id the fan-out is keyed by, and the JSON fields
of the message (`type`, `filename`). -/
structure ScheduledNotify where
  delayMs : Nat
  targetUid : JStr
  msgType : JStr
  msgFilename : JStr
deriving DecidableEq

/-- Response body of `POST /api/images`: `{ success: true, filename }` on
success, `{ error: msg }` on a 400. -/
inductive UploadBody where
  | uploadOk (filename : JStr)
  | uploadErr (msg : JStr)
deriving DecidableEq

/-- Outcome of a completed `POST /api/images` handler run: HTTP status,
response body, the bucket contents after the handler, and the scheduled
notification (if any). -/
structure PostOutcome where
  status : Nat
  body : UploadBody
  bucketAfter : List JStr
  scheduled : Option ScheduledNotify
deriving DecidableEq

/-- A handler run either completes (`ok`) or throws a TypeError by
dereferencing a field of `undefined` (`thrown`). -/
inductive PostRun where
  | ok (r : PostOutcome)
  | thrown
deriving DecidableEq

/-- The per-user thumbnail directory `thumbnails/<uid>/` used by the GET and
DELETE routes. -/
def thumbDir (uid : JStr) : JStr := "thumbnails/".data ++ uid ++ ['/']

/-- The string the GET route replaces:
`` `thumbnails/${userId}/thumb_` ``. -/
def thumbMarker (uid : JStr) : JStr := thumbDir uid ++ "thumb_".data

/-- Handler of `GET /api/images`. The bucket is the list of object names;
`getFiles({prefix})` is the prefix filter, the route drops names ending in
`'/'`, signs each thumbnail, derives the full-size name with
`thumb.name.replace(` ``thumbnails/${userId}/thumb_`` `, ` ``${userId}/`` `)`
and signs it too. `now` is the value of `Date.now()`; every `getSignedUrl`
call uses `action: 'read', expires: Date.now() + 15 * 60 * 1000`. -/
def getImagesHandler (bucket : List JStr) (uid : JStr) (now : Int) :
    List ImagePair :=
  ((bucket.filter (fun n => startsWithStr n (thumbDir uid))).filter
      (fun n => !endsWithSlash n)).map
    (fun thumbName =>
      { thumbnailUrl :=
          { objectName := thumbName, action := .read,
            expires := now + 15 * 60 * 1000 },
        fullUrl :=
          { objectName := replaceFirst (thumbMarker uid) (uid ++ ['/']) thumbName,
            action := .read, expires := now + 15 * 60 * 1000 } })

/-- The stored name of an
upload, `` `${uuidv4()}.${path.extname(data.filename)}` `` (the template
interpolates a dot before the `extname` result, which
itself starts with a dot when nonempty; modelled as written). -/
def uniqueFilenameOf (uuid fname : JStr) : JStr := uuid ++ '.' :: extname fname

/-- Handler of `POST /api/images` (current revision): requires a file part
(`if (!data) return 400`), stores the upload at
`` `${userId}/${uniqueFilename}` ``, and schedules the PROCESSING_COMPLETE
notification with `setTimeout(..., 5000)` keyed by the uploader's session
user id. `uuid` is the value of `uuidv4()`. -/
def postImagesHandler (bucket : List JStr) (uid : JStr)
    (fileData : Option MultipartData) (uuid : JStr) : PostRun :=
  match fileData with
  | none =>
    .ok { status := 400, body := .uploadErr "A file is required.".data,
          bucketAfter := bucket, scheduled := none }
  | some d =>
    let uniqueFilename := uniqueFilenameOf uuid d.filename
    let filePath := uid ++ '/' :: uniqueFilename
    .ok { status := 200, body := .uploadOk uniqueFilename,
          bucketAfter := bucket ++ [filePath],
          scheduled := some
            { delayMs := 5000, targetUid := uid,
              msgType := "PROCESSING_COMPLETE".data,
              msgFilename := uniqueFilename } }

/-- An earlier revision of the `POST /api/images` handler kept in the
repository: it evaluates `data.file.truncated` before the `if (!data)` check,
so a request without a file part dereferences `undefined` and throws, and it
stores `path.basename(data.filename)` at the bucket root. -/
def postImagesHandlerRev2 (bucket : List JStr)
    (fileData : Option MultipartData) : PostRun :=
  match fileData with
  | none => .thrown
  | some d =>
    if d.truncated then
      .ok { status := 400, body := .uploadErr "File too large. Max size is 5MB.".data,
            bucketAfter := bucket, scheduled := none }
    else if !startsWithStr d.mimetype "image/".data then
      .ok { status := 400, body := .uploadErr "Only image files are allowed.".data,
            bucketAfter := bucket, scheduled := none }
    else
      let sanitizedFilename := basename d.filename
      .ok { status := 200, body := .uploadOk sanitizedFilename,
            bucketAfter := bucket ++ [sanitizedFilename],
            scheduled := some
              { delayMs := 5000, targetUid := [],
                msgType := "PROCESSING_COMPLETE".data,
                msgFilename := sanitizedFilename } }

/-- The two object names `DELETE /api/images/:filename` deletes:
`` `${userId}/${filename}` `` and
`` `thumbnails/${userId}/thumb_${filename}` `` where
`filename = path.basename(request.params.filename)`. -/
def deleteTargets (uid p : JStr) : JStr × JStr :=
  (uid ++ '/' :: basename p,
   "thumbnails/".data ++ uid ++ "/thumb_".data ++ basename p)

/-- Outcome of `DELETE /api/images/:filename`: status, whether the success
body was sent, and the bucket afterwards. `Promise.all` lets a delete of an
existing object complete even when the other delete rejects with 404, so
present targets are removed on both paths. -/
structure DeleteOutcome where
  status : Nat
  okFlag : Bool
  bucketAfter : List JStr
deriving DecidableEq

/-- Handler of `DELETE /api/images/:filename` (current revision). -/
def deleteImagesHandler (bucket : List JStr) (uid : JStr) (p : JStr) :
    DeleteOutcome :=
  let t := deleteTargets uid p
  let bucketAfter :=
    (bucket.filter (fun n => !(n == t.1))).filter (fun n => !(n == t.2))
  if bucket.contains t.1 && bucket.contains t.2 then
    { status := 200, okFlag := true, bucketAfter := bucketAfter }
  else
    { status := 404, okFlag := false, bucketAfter := bucketAfter }

/-- The auth middleware `ensureAuthenticated`: `if (request.session.user) return done();`
otherwise `reply.code(401).send({ error: 'Unauthorized' })`. Returns `true`
when the request may proceed to the handler. -/
def ensureAuthenticated (sess : Session) : Bool :=
  match sess.user with
  | some _ => true
  | none => false

/-- The five routes registered with `preHandler: [ensureAuthenticated]`. -/
inductive ApiRoute where
  | authMe
  | authLogout
  | imagesGet
  | imagesPost
  | imagesDelete
deriving DecidableEq

/-- Request data consumed by the handlers: the `Date.now()` clock, the
multipart file part (if any), the `uuidv4()` value, and the `:filename`
route parameter. -/
structure ApiRequest where
  now : Int
  fileData : Option MultipartData
  uuid : JStr
  filenameParam : JStr
deriving DecidableEq

/-- Response bodies across the five protected routes. -/
inductive ApiBody where
  | errBody (msg : JStr)
  | userBody (u : UserProfile)
  | msgBody (msg : JStr)
  | imagesBody (pairs : List ImagePair)
  | upBody (b : UploadBody)
deriving DecidableEq

/-- Observable outcome of one request: status, body, the bucket after the
request, the notification scheduled by the request (if any), and whether the
route handler ran (`false` when the preHandler already replied 401). -/
structure ApiOutcome where
  status : Nat
  body : ApiBody
  bucketAfter : List JStr
  scheduled : Option ScheduledNotify
  handlerRan : Bool
deriving DecidableEq

/-- The route handlers, run with an authenticated user `u`. The logout
store-failure branch and the GCS error branches (500 responses to exceptions
from the cloud SDK) are external-failure paths and are not modelled; an
uncaught throw inside the POST handler is converted by fastify into a 500. -/
def runRoute (r : ApiRoute) (u : UserProfile) (bucket : List JStr)
    (req : ApiRequest) : ApiOutcome :=
  match r with
  | .authMe =>
    { status := 200, body := .userBody u, bucketAfter := bucket,
      scheduled := none, handlerRan := true }
  | .authLogout =>
    { status := 200, body := .msgBody "Logged out successfully".data,
      bucketAfter := bucket, scheduled := none, handlerRan := true }
  | .imagesGet =>
    { status := 200, body := .imagesBody (getImagesHandler bucket u.id req.now),
      bucketAfter := bucket, scheduled := none, handlerRan := true }
  | .imagesPost =>
    match postImagesHandler bucket u.id req.fileData req.uuid with
    | .ok out =>
      { status := out.status, body := .upBody out.body,
        bucketAfter := out.bucketAfter, scheduled := out.scheduled,
        handlerRan := true }
    | .thrown =>
      { status := 500, body := .errBody "Internal Server Error".data,
        bucketAfter := bucket, scheduled := none, handlerRan := true }
  | .imagesDelete =>
    let d := deleteImagesHandler bucket u.id req.filenameParam
    if d.okFlag then
      { status := d.status, body := .msgBody "Image deleted".data,
        bucketAfter := d.bucketAfter, scheduled := none, handlerRan := true }
    else
      { status := d.status, body := .errBody "File not found".data,
        bucketAfter := d.bucketAfter, scheduled := none, handlerRan := true }

/-- Request dispatch: fastify runs the `preHandler` first; when
`ensureAuthenticated` replies 401 the handler never runs, otherwise the
handler runs with the session user. -/
def dispatch (r : ApiRoute) (sess : Session) (bucket : List JStr)
    (req : ApiRequest) : ApiOutcome :=
  match sess.user with
  | none =>
    { status := 401, body := .errBody "Unauthorized".data,
      bucketAfter := bucket, scheduled := none, handlerRan := false }
  | some u => runRoute r u bucket req

/-- Lookup `connections.get(userId)` on the JS `Map` (first binding wins; `mapSet`
prepends and `mapDelete` removes every binding of the key, so lookups see
exactly the `Map` semantics). -/
def mapGet (m : List (JStr × Nat)) (k : JStr) : Option Nat :=
  match m with
  | [] => none
  | (k', v) :: rest => if k' = k then some v else mapGet rest k

/-- Update `connections.set(userId, connection)`. -/
def mapSet (m : List (JStr × Nat)) (k : JStr) (v : Nat) : List (JStr × Nat) :=
  (k, v) :: m

/-- Deletion `connections.delete(userId)`. -/
def mapDelete (m : List (JStr × Nat)) (k : JStr) : List (JStr × Nat) :=
  match m with
  | [] => []
  | (k', v) :: rest =>
    if k' = k then mapDelete rest k else (k', v) :: mapDelete rest k

/-- The session user id a connection was registered under at `/ws` open
(the close handler captured this `user.id`). The registry is newest-first. -/
def regGet (r : List (Nat × JStr)) (c : Nat) : Option JStr :=
  match r with
  | [] => none
  | (c', u) :: rest => if c' = c then some u else regGet rest c

/-- The most recently opened `/ws` connection of a user (the registry is
newest-first). -/
def recentConnOf (r : List (Nat × JStr)) (u : JStr) : Option Nat :=
  match r with
  | [] => none
  | (c, u') :: rest => if u' = u then some c else recentConnOf rest u

/-- The uploader and notification filename of a scheduled upload timer. -/
def pendGet (p : List (Nat × JStr × JStr)) (k : Nat) : Option (JStr × JStr) :=
  match p with
  | [] => none
  | (k', u, f) :: rest => if k' = k then some (u, f) else pendGet rest k

/-- Server state relevant to the WebSocket fan-out: the shared
`connections` map; the registry of `/ws` opens (connection id, session user
id at open, newest first); the connections whose close event has fired; the
upload timers scheduled by `POST /api/images` (timer id, uploader id,
notification filename); the timers that have fired; and the delivered
PROCESSING_COMPLETE messages (receiving connection, timer id, filename). -/
structure WsState where
  connMap : List (JStr × Nat)
  reg : List (Nat × JStr)
  closed : List Nat
  pending : List (Nat × JStr × JStr)
  fired : List Nat
  sent : List (Nat × Nat × JStr)
deriving DecidableEq

/-- Events of the fan-out subsystem: an authenticated `/ws` open
(`connections.set(user.id, connection)`), a connection close event
(`connections.delete(user.id)` for the captured id), the completion of an
upload (which calls `setTimeout(..., 5000)`), and the firing of an upload
timer (which sends iff `connections.has(userId)`). -/
inductive WsEvent where
  | wsOpen (c : Nat) (u : JStr)
  | wsClose (c : Nat)
  | uploadDone (u : JStr) (k : Nat) (f : JStr)
  | fire (k : Nat)
deriving DecidableEq

/-- One step of the fan-out subsystem, translated from the `/ws` route and
the `setTimeout` callback of `POST /api/images`. -/
def wsStep (s : WsState) : WsEvent → WsState
  | .wsOpen c u =>
    { s with connMap := mapSet s.connMap u c, reg := (c, u) :: s.reg }
  | .wsClose c =>
    match regGet s.reg c with
    | some u => { s with connMap := mapDelete s.connMap u, closed := c :: s.closed }
    | none => { s with closed := c :: s.closed }
  | .uploadDone u k f => { s with pending := (k, u, f) :: s.pending }
  | .fire k =>
    match pendGet s.pending k with
    | some (u, f) =>
      match mapGet s.connMap u with
      | some c => { s with fired := k :: s.fired, sent := (c, k, f) :: s.sent }
      | none => { s with fired := k :: s.fired }
    | none => { s with fired := k :: s.fired }

/-- Environment constraints on an event: connection ids and timer ids are
fresh object identities (never reused), a close event fires at most once per
connection, and a timer fires only once and only after being scheduled. -/
def wsValidEvent (s : WsState) : WsEvent → Bool
  | .wsOpen c _ => (regGet s.reg c).isNone && !(decide (c ∈ s.closed))
  | .wsClose c => !(decide (c ∈ s.closed))
  | .uploadDone _ k _ => (pendGet s.pending k).isNone
  | .fire k => (pendGet s.pending k).isSome && !(decide (k ∈ s.fired))

/-- Run a trace of events from a state. -/
def wsRun (s : WsState) : List WsEvent → WsState
  | [] => s
  | e :: es => wsRun (wsStep s e) es

/-- A trace is valid from `s` when every event is valid in the state it is
taken from. -/
def wsValid (s : WsState) : List WsEvent → Bool
  | [] => true
  | e :: es => wsValidEvent s e && wsValid (wsStep s e) es

/-- The server's initial state: empty `connections` map, nothing scheduled. -/
def wsInit : WsState :=
  { connMap := [], reg := [], closed := [], pending := [], fired := [],
    sent := [] }

/-- Invariant of every reachable state of the fan-out subsystem:

* `mapOk`: a user id present in the `connections` map is bound to a
  connection that was registered under exactly that id, is the most recently
  opened connection of that user, and whose close event has not fired;
* `sentOk`: every delivered PROCESSING_COMPLETE message went to a connection
  registered under the id of the user who performed that upload, and its
  timer has fired. -/
structure WsInv (s : WsState) : Prop where
  mapOk : ∀ u c, mapGet s.connMap u = some c →
    regGet s.reg c = some u ∧ recentConnOf s.reg u = some c ∧ c ∉ s.closed
  sentOk : ∀ c k f, (c, k, f) ∈ s.sent →
    k ∈ s.fired ∧ ∃ u, pendGet s.pending k = some (u, f) ∧
      regGet s.reg c = some u

/-- The notification scheduled by a completed POST handler run. -/
def scheduledOf : PostRun → Option ScheduledNotify
  | .ok r => r.scheduled
  | .thrown => none

/-- The filename in the success response body of a POST handler run. -/
def respFilenameOf : PostRun → Option JStr
  | .ok r =>
    match r.body with
    | .uploadOk f => some f
    | .uploadErr _ => none
  | .thrown => none

/-- The bucket contents after a POST handler run. -/
def bucketAfterOf (bucket : List JStr) : PostRun → List JStr
  | .ok r => r.bucketAfter
  | .thrown => bucket

-- --- THEOREMS ---

theorem startsWithStr_append (p w : JStr) : startsWithStr (p ++ w) p = true := by
  induction p with
  | nil => cases w <;> rfl
  | cons a pa ih => simp [startsWithStr, ih]

theorem startsWithStr_eq_append {s p : JStr} (h : startsWithStr s p = true) :
    s = p ++ s.drop p.length := by
  induction p generalizing s with
  | nil => simp
  | cons a pa ih =>
    cases s with
    | nil => simp [startsWithStr] at h
    | cons c s' =>
      simp only [startsWithStr, Bool.and_eq_true, beq_iff_eq] at h
      simpa [h.1] using ih h.2

theorem startsWithStr_of_append_left {s p q : JStr}
    (h : startsWithStr s (p ++ q) = true) : startsWithStr s p = true := by
  induction p generalizing s with
  | nil => cases s <;> rfl
  | cons a pa ih =>
    cases s with
    | nil => simp [startsWithStr] at h
    | cons c s' =>
      simp only [List.cons_append, startsWithStr, Bool.and_eq_true] at h ⊢
      exact ⟨h.1, ih h.2⟩

theorem startsWithStr_drop_of_append {s p q : JStr}
    (h : startsWithStr s (p ++ q) = true) :
    startsWithStr (s.drop p.length) q = true := by
  induction p generalizing s with
  | nil => simpa using h
  | cons a pa ih =>
    cases s with
    | nil => simp [startsWithStr] at h
    | cons c s' =>
      simp only [List.cons_append, startsWithStr, Bool.and_eq_true] at h
      simpa using ih h.2

theorem replaceFirst_of_startsWith {pat s : JStr} (repl : JStr)
    (h : startsWithStr s pat = true) :
    replaceFirst pat repl s = repl ++ s.drop pat.length := by
  cases s with
  | nil =>
    cases pat with
    | nil => simp [replaceFirst, startsWithStr]
    | cons a pa => simp [startsWithStr] at h
  | cons c rest => simp [replaceFirst, h]

theorem replaceFirst_of_not_contains {pat s : JStr} (repl : JStr)
    (h : containsSub pat s = false) : replaceFirst pat repl s = s := by
  induction s with
  | nil =>
    simp only [containsSub] at h
    simp [replaceFirst, h]
  | cons c rest ih =>
    simp only [containsSub, Bool.or_eq_false_iff] at h
    simp [replaceFirst, h.1, ih h.2]

theorem mem_takeWhileB {p : Char → Bool} {l : JStr} {a : Char}
    (h : a ∈ l.takeWhile p) : p a = true := by
  induction l with
  | nil => simp [List.takeWhile] at h
  | cons c rest ih =>
    by_cases hc : p c = true
    · rw [List.takeWhile_cons, if_pos hc] at h
      rcases List.mem_cons.mp h with rfl | h'
      · exact hc
      · exact ih h'
    · rw [List.takeWhile_cons, if_neg hc] at h
      simp at h

theorem slash_not_mem_basename (p : JStr) : '/' ∉ basename p := by
  intro hmem
  rw [basename, List.mem_reverse] at hmem
  have := mem_takeWhileB hmem
  simp at this

theorem takeWhile_eq_self_of_all {p : Char → Bool} {l : JStr}
    (h : ∀ a ∈ l, p a = true) : l.takeWhile p = l := by
  induction l with
  | nil => rfl
  | cons c rest ih =>
    rw [List.takeWhile_cons, if_pos (h c (List.mem_cons_self c rest))]
    rw [ih fun a ha => h a (List.mem_cons_of_mem c ha)]

theorem dropWhile_eq_self_of_all {p : Char → Bool} {l : JStr}
    (h : ∀ a ∈ l, p a = false) : l.dropWhile p = l := by
  cases l with
  | nil => rfl
  | cons c rest =>
    rw [List.dropWhile_cons, if_neg (by simp [h c (List.mem_cons_self c rest)])]

theorem basename_of_no_slash {s : JStr} (h : '/' ∉ s) : basename s = s := by
  have hall : ∀ a ∈ s.reverse, (a == '/') = false := by
    intro a ha
    rw [List.mem_reverse] at ha
    simp only [beq_eq_false_iff_ne, ne_eq]
    intro heq; exact h (heq ▸ ha)
  rw [basename, dropWhile_eq_self_of_all hall,
    takeWhile_eq_self_of_all (fun a ha => by simp [hall a ha]),
    List.reverse_reverse]

theorem basename_idem (p : JStr) : basename (basename p) = basename p :=
  basename_of_no_slash (slash_not_mem_basename p)

theorem firstSeg_of_startsWith {u n : JStr} (hu : '/' ∉ u)
    (h : startsWithStr n (u ++ ['/']) = true) : firstSeg n = u := by
  induction u generalizing n with
  | nil =>
    cases n with
    | nil => simp [startsWithStr] at h
    | cons c rest =>
      simp only [List.nil_append, startsWithStr, Bool.and_eq_true, beq_iff_eq] at h
      simp [firstSeg, List.takeWhile_cons, h.1]
  | cons a ua ih =>
    cases n with
    | nil => simp [startsWithStr] at h
    | cons c rest =>
      simp only [List.cons_append, startsWithStr, Bool.and_eq_true, beq_iff_eq] at h
      have ha : a ≠ '/' := fun heq => hu (heq ▸ List.mem_cons_self a ua)
      have hrest := ih (fun hm => hu (List.mem_cons_of_mem a hm)) h.2
      rw [firstSeg] at hrest
      simp [firstSeg, List.takeWhile_cons, h.1, ha, hrest]

theorem mapGet_set_self (m : List (JStr × Nat)) (k : JStr) (v : Nat) :
    mapGet (mapSet m k v) k = some v := by
  simp [mapGet, mapSet]

theorem mapGet_set_ne (m : List (JStr × Nat)) {k k' : JStr} (v : Nat)
    (h : k ≠ k') : mapGet (mapSet m k v) k' = mapGet m k' := by
  simp [mapGet, mapSet, h]

theorem mapGet_delete_self (m : List (JStr × Nat)) (k : JStr) :
    mapGet (mapDelete m k) k = none := by
  induction m with
  | nil => rfl
  | cons e rest ih =>
    obtain ⟨k', v⟩ := e
    by_cases h : k' = k
    · simpa [mapDelete, h] using ih
    · simpa [mapDelete, mapGet, h] using ih

theorem mapGet_delete_ne (m : List (JStr × Nat)) {k k' : JStr} (h : k ≠ k') :
    mapGet (mapDelete m k) k' = mapGet m k' := by
  induction m with
  | nil => rfl
  | cons e rest ih =>
    obtain ⟨k'', v⟩ := e
    by_cases h2 : k'' = k
    · have hne : k'' ≠ k' := fun heq => h (h2.symm.trans heq)
      simp only [mapDelete, mapGet, if_pos h2, if_neg hne]
      exact ih
    · by_cases h3 : k'' = k'
      · simp only [mapDelete, mapGet, if_neg h2, if_pos h3]
      · simp only [mapDelete, mapGet, if_neg h2, if_neg h3]
        exact ih

theorem regGet_cons_ne {r : List (Nat × JStr)} {c c0 : Nat} {u : JStr}
    (h : c0 ≠ c) : regGet ((c0, u) :: r) c = regGet r c := by
  simp [regGet, h]

theorem pendGet_cons_ne {p : List (Nat × JStr × JStr)} {k k0 : Nat}
    {u f : JStr} (h : k0 ≠ k) :
    pendGet ((k0, u, f) :: p) k = pendGet p k := by
  simp [pendGet, h]

theorem wsInv_init : WsInv wsInit := by
  constructor
  · intro u c h; simp [wsInit, mapGet] at h
  · intro c k f h; simp [wsInit] at h

theorem wsInv_step {s : WsState} {e : WsEvent} (inv : WsInv s)
    (hv : wsValidEvent s e = true) : WsInv (wsStep s e) := by
  cases e with
  | wsOpen c u =>
    simp only [wsValidEvent, Bool.and_eq_true, Option.isNone_iff_eq_none,
      Bool.not_eq_true', decide_eq_false_iff_not] at hv
    obtain ⟨hfresh, hnc⟩ := hv
    constructor
    · intro v c' hvc'
      simp only [wsStep] at hvc' ⊢
      by_cases huv : u = v
      · subst huv
        rw [mapGet_set_self] at hvc'
        cases hvc'
        refine ⟨by simp [regGet], by simp [recentConnOf], hnc⟩
      · rw [mapGet_set_ne _ _ huv] at hvc'
        obtain ⟨h1, h2, h3⟩ := inv.mapOk v c' hvc'
        have hne : c' ≠ c := by
          intro heq; rw [heq, hfresh] at h1; exact Option.noConfusion h1
        refine ⟨?_, ?_, h3⟩
        · rw [regGet_cons_ne hne.symm]; exact h1
        · have huv' : u ≠ v := huv
          simp only [recentConnOf, if_neg huv']
          exact h2
    · intro c' k f hmem
      simp only [wsStep] at hmem ⊢
      obtain ⟨h1, v, h2, h3⟩ := inv.sentOk c' k f hmem
      have hne : c' ≠ c := by
        intro heq; rw [heq, hfresh] at h3; exact Option.noConfusion h3
      exact ⟨h1, v, h2, by rw [regGet_cons_ne hne.symm]; exact h3⟩
  | wsClose c =>
    simp only [wsValidEvent, Bool.not_eq_true', decide_eq_false_iff_not] at hv
    cases hreg : regGet s.reg c with
    | some u0 =>
      constructor
      · intro v c' hvc'
        simp only [wsStep, hreg] at hvc' ⊢
        by_cases huv : u0 = v
        · subst huv; rw [mapGet_delete_self] at hvc'
          exact Option.noConfusion hvc'
        · rw [mapGet_delete_ne _ huv] at hvc'
          obtain ⟨h1, h2, h3⟩ := inv.mapOk v c' hvc'
          have hne : c' ≠ c := by
            intro heq; rw [heq, hreg] at h1; cases h1; exact huv rfl
          refine ⟨h1, h2, ?_⟩
          simp only [List.mem_cons, not_or]
          exact ⟨hne, h3⟩
      · intro c' k f hmem
        simp only [wsStep, hreg] at hmem ⊢
        exact inv.sentOk c' k f hmem
    | none =>
      constructor
      · intro v c' hvc'
        simp only [wsStep, hreg] at hvc' ⊢
        obtain ⟨h1, h2, h3⟩ := inv.mapOk v c' hvc'
        have hne : c' ≠ c := by
          intro heq; rw [heq, hreg] at h1; exact Option.noConfusion h1
        refine ⟨h1, h2, ?_⟩
        simp only [List.mem_cons, not_or]
        exact ⟨hne, h3⟩
      · intro c' k f hmem
        simp only [wsStep, hreg] at hmem ⊢
        exact inv.sentOk c' k f hmem
  | uploadDone u k f =>
    simp only [wsValidEvent, Option.isNone_iff_eq_none] at hv
    constructor
    · intro v c' hvc'
      simp only [wsStep] at hvc' ⊢
      exact inv.mapOk v c' hvc'
    · intro c' k' f' hmem
      simp only [wsStep] at hmem ⊢
      obtain ⟨h1, v, h2, h3⟩ := inv.sentOk c' k' f' hmem
      have hne : k ≠ k' := by
        intro heq; rw [heq] at hv; rw [hv] at h2; exact Option.noConfusion h2
      exact ⟨h1, v, by rw [pendGet_cons_ne hne]; exact h2, h3⟩
  | fire k =>
    simp only [wsValidEvent, Bool.and_eq_true, Option.isSome_iff_exists,
      Bool.not_eq_true', decide_eq_false_iff_not] at hv
    obtain ⟨⟨⟨u0, f0⟩, hpend⟩, hnf⟩ := hv
    cases hlook : mapGet s.connMap u0 with
    | some c0 =>
      constructor
      · intro v c' hvc'
        simp only [wsStep, hpend, hlook] at hvc' ⊢
        exact inv.mapOk v c' hvc'
      · intro c' k' f' hmem
        simp only [wsStep, hpend, hlook, List.mem_cons] at hmem ⊢
        rcases hmem with heq | hmem
        · cases heq
          obtain ⟨h1, _, _⟩ := inv.mapOk u0 c0 hlook
          exact ⟨Or.inl rfl, u0, hpend, h1⟩
        · obtain ⟨h1, v, h2, h3⟩ := inv.sentOk c' k' f' hmem
          exact ⟨Or.inr h1, v, h2, h3⟩
    | none =>
      constructor
      · intro v c' hvc'
        simp only [wsStep, hpend, hlook] at hvc' ⊢
        exact inv.mapOk v c' hvc'
      · intro c' k' f' hmem
        simp only [wsStep, hpend, hlook, List.mem_cons] at hmem ⊢
        obtain ⟨h1, v, h2, h3⟩ := inv.sentOk c' k' f' hmem
        exact ⟨Or.inr h1, v, h2, h3⟩

theorem wsInv_run {s : WsState} (inv : WsInv s) :
    ∀ es : List WsEvent, wsValid s es = true → WsInv (wsRun s es) := by
  intro es
  induction es generalizing s with
  | nil => intro _; exact inv
  | cons e es ih =>
    intro hv
    simp only [wsValid, Bool.and_eq_true] at hv
    exact ih (wsInv_step inv hv.1) hv.2

/-- C5: for every successful upload, the notification is scheduled by
`setTimeout(..., 5000)` — a fixed 5000 ms timer started right after the
object is written to storage — and the schedule does not depend on the bucket
contents at all, in particular not on whether a thumbnail for the upload
exists. -/
theorem c5_fixed_timer (bucket bucketOther : List JStr) (uid : JStr)
    (d : MultipartData) (uuid : JStr) :
    postImagesHandler bucket uid (some d) uuid =
      .ok { status := 200,
            body := .uploadOk (uniqueFilenameOf uuid d.filename),
            bucketAfter := bucket ++ [uid ++ '/' :: uniqueFilenameOf uuid d.filename],
            scheduled := some
              { delayMs := 5000, targetUid := uid,
                msgType := "PROCESSING_COMPLETE".data,
                msgFilename := uniqueFilenameOf uuid d.filename } }
    ∧ scheduledOf (postImagesHandler bucket uid (some d) uuid) =
        scheduledOf (postImagesHandler bucketOther uid (some d) uuid) := by
  exact ⟨rfl, rfl⟩

/-- C6: every URL in a successful `GET /api/images` response is generated
with `action: 'read'` and `expires: Date.now() + 15 * 60 * 1000`, for both
the thumbnail URL and the full-size URL. -/
theorem c6_signed_urls (bucket : List JStr) (uid : JStr) (now : Int)
    (pr : ImagePair) (hmem : pr ∈ getImagesHandler bucket uid now) :
    pr.thumbnailUrl.action = .read ∧
    pr.thumbnailUrl.expires = now + 15 * 60 * 1000 ∧
    pr.fullUrl.action = .read ∧
    pr.fullUrl.expires = now + 15 * 60 * 1000 := by
  rw [getImagesHandler] at hmem
  obtain ⟨n, _, rfl⟩ := List.mem_map.mp hmem
  exact ⟨rfl, rfl, rfl, rfl⟩

/-- Witness for C6 on a concrete bucket. -/
theorem c6_signed_urls_witness :
    ({ thumbnailUrl :=
         { objectName := "thumbnails/u1/thumb_cat.png".data, action := .read,
           expires := 900000 },
       fullUrl :=
         { objectName := "u1/cat.png".data, action := .read,
           expires := 900000 } } : ImagePair) ∈
      getImagesHandler ["thumbnails/u1/thumb_cat.png".data] "u1".data 0 ∧
    ({ objectName := "thumbnails/u1/thumb_cat.png".data, action := .read,
       expires := 900000 } : SignedUrl).action = .read := by
  refine ⟨by decide, ?_⟩
  exact (c6_signed_urls ["thumbnails/u1/thumb_cat.png".data] "u1".data 0
    { thumbnailUrl :=
        { objectName := "thumbnails/u1/thumb_cat.png".data, action := .read,
          expires := 900000 },
      fullUrl :=
        { objectName := "u1/cat.png".data, action := .read,
          expires := 900000 } }
    (by decide)).1

/-- C7: every one of the five protected routes replies
`401 { error: 'Unauthorized' }` from `ensureAuthenticated` when the session
has no user — the handler does not run and the bucket is untouched — and
runs its handler when a session user is present. -/
theorem c7_auth_required (r : ApiRoute) (bucket : List JStr)
    (req : ApiRequest) :
    (ensureAuthenticated { user := none } = false ∧
      dispatch r { user := none } bucket req =
        { status := 401, body := .errBody "Unauthorized".data,
          bucketAfter := bucket, scheduled := none, handlerRan := false }) ∧
    (∀ u : UserProfile,
      ensureAuthenticated { user := some u } = true ∧
      (dispatch r { user := some u } bucket req).handlerRan = true) := by
  refine ⟨⟨rfl, rfl⟩, fun u => ⟨rfl, ?_⟩⟩
  cases r with
  | authMe => rfl
  | authLogout => rfl
  | imagesGet => rfl
  | imagesPost =>
    show (runRoute .imagesPost u bucket req).handlerRan = true
    rw [runRoute]
    cases postImagesHandler bucket u.id req.fileData req.uuid with
    | ok out => rfl
    | thrown => rfl
  | imagesDelete =>
    show (runRoute .imagesDelete u bucket req).handlerRan = true
    rw [runRoute]
    by_cases h : (deleteImagesHandler bucket u.id req.filenameParam).okFlag = true
    · rw [if_pos h]
    · rw [if_neg h]

/-- C8: an authenticated `POST /api/images` without a file part returns 400
with `{ error: 'A file is required.' }`, writes nothing and schedules
nothing; the `if (!data)` check comes before any field access on the
multipart object, so the handler never throws on an absent part. -/
theorem c8_null_check_first (bucket : List JStr) (uid uuid : JStr) :
    postImagesHandler bucket uid none uuid =
      .ok { status := 400, body := .uploadErr "A file is required.".data,
            bucketAfter := bucket, scheduled := none } ∧
    ∀ fileData : Option MultipartData,
      postImagesHandler bucket uid fileData uuid ≠ .thrown := by
  refine ⟨rfl, fun fileData => ?_⟩
  cases fileData with
  | none => intro h; exact PostRun.noConfusion h
  | some d => intro h; exact PostRun.noConfusion h

/-- The earlier revision of the POST handler kept in the repository evaluates
`data.file.truncated` before its `if (!data)` check, so the same request
throws a TypeError there instead of returning 400. -/
theorem postImagesHandlerRev2_throws (bucket : List JStr) :
    postImagesHandlerRev2 bucket none = .thrown := rfl

/-- C9: `DELETE /api/images/:filename` derives the deleted object names from
`path.basename` of the route parameter: the basename contains no separator,
and any parameter (including ones with `/` or `..` segments) targets exactly
the two objects its basename alone would. -/
theorem c9_basename_sanitized (uid p : JStr) :
    '/' ∉ basename p ∧
    deleteTargets uid p = deleteTargets uid (basename p) := by
  refine ⟨slash_not_mem_basename p, ?_⟩
  rw [deleteTargets, deleteTargets, basename_idem]

/-- Witness for C9 at the traversal-style parameter `../../u2/x`. -/
theorem c9_basename_sanitized_witness :
    '/' ∉ basename "../../u2/x".data ∧
    deleteTargets "u1".data "../../u2/x".data =
      deleteTargets "u1".data (basename "../../u2/x".data) :=
  c9_basename_sanitized "u1".data "../../u2/x".data

/-- C10: for every successful upload, the filename of the scheduled
PROCESSING_COMPLETE message equals the filename in the HTTP response body
(both are the handler's `uniqueFilename`). -/
theorem c10_filenames_agree (bucket : List JStr) (uid : JStr)
    (d : MultipartData) (uuid : JStr) :
    respFilenameOf (postImagesHandler bucket uid (some d) uuid) =
      (scheduledOf (postImagesHandler bucket uid (some d) uuid)).map
        ScheduledNotify.msgFilename ∧
    respFilenameOf (postImagesHandler bucket uid (some d) uuid) =
      some (uniqueFilenameOf uuid d.filename) := by
  exact ⟨rfl, rfl⟩

/-- C2 as stated is false: `GET /api/images` derives the full-size object
name with JavaScript `replace`, which rewrites the *first* occurrence of
`` `thumbnails/${userId}/thumb_` ``. For the user id `abthumbnails` and the
bucket object `thumbnails/abthumbnails/abthumbnails/thumb_z` — an object
inside that user's own thumbnail area — the first occurrence starts at
position 13, not 0, and the route signs a read URL for
`thumbnails/ababthumbnails/z`, which lies under neither `abthumbnails/` nor
`thumbnails/abthumbnails/`. -/
theorem c2_counterexample :
    getImagesHandler ["thumbnails/abthumbnails/abthumbnails/thumb_z".data]
        "abthumbnails".data 0 =
      [{ thumbnailUrl :=
           { objectName := "thumbnails/abthumbnails/abthumbnails/thumb_z".data,
             action := .read, expires := 900000 },
         fullUrl :=
           { objectName := "thumbnails/ababthumbnails/z".data,
             action := .read, expires := 900000 } }] ∧
    startsWithStr "thumbnails/ababthumbnails/z".data
      ("abthumbnails".data ++ ['/']) = false ∧
    startsWithStr "thumbnails/ababthumbnails/z".data
      (thumbDir "abthumbnails".data) = false := by
  refine ⟨by decide, by decide, by decide⟩

/-- C2, amended: storage access is per-user as claimed for `POST` and
`DELETE` unconditionally; `GET /api/images` lists only objects under
`thumbnails/<u.id>/`, and the full-size URLs it signs also stay under
`<u.id>/` or `thumbnails/<u.id>/` **provided** every listed thumbnail name
either begins with `thumbnails/<u.id>/thumb_` (the canonical name the
thumbnail pipeline produces) or does not contain that marker at all; and for
two distinct users whose ids contain no `/` and are not the literal
`thumbnails`, names under one user's prefixes are never under the other's. -/
theorem c2_amended_isolation (bucket : List JStr) (uid : JStr) (now : Int)
    (d : MultipartData) (uuid p : JStr) :
    (∀ n, n ∈ bucketAfterOf bucket (postImagesHandler bucket uid (some d) uuid) →
      n ∈ bucket ∨ startsWithStr n (uid ++ ['/']) = true) ∧
    (∀ pr, pr ∈ getImagesHandler bucket uid now →
      startsWithStr pr.thumbnailUrl.objectName (thumbDir uid) = true ∧
      ((∀ n, n ∈ bucket → startsWithStr n (thumbDir uid) = true →
          startsWithStr n (thumbMarker uid) = true ∨
          containsSub (thumbMarker uid) n = false) →
        startsWithStr pr.fullUrl.objectName (uid ++ ['/']) = true ∨
        startsWithStr pr.fullUrl.objectName (thumbDir uid) = true)) ∧
    (startsWithStr (deleteTargets uid p).1 (uid ++ ['/']) = true ∧
     startsWithStr (deleteTargets uid p).2 (thumbDir uid) = true) ∧
    (∀ v n, uid ≠ v → '/' ∉ uid → '/' ∉ v →
      uid ≠ "thumbnails".data → v ≠ "thumbnails".data →
      (startsWithStr n (uid ++ ['/']) = true ∨
        startsWithStr n (thumbDir uid) = true) →
      ¬(startsWithStr n (v ++ ['/']) = true ∨
        startsWithStr n (thumbDir v) = true)) := by
  refine ⟨?_, ?_, ?_, ?_⟩
  · -- POST writes only under `${userId}/`.
    intro n hn
    simp only [bucketAfterOf, postImagesHandler, List.mem_append,
      List.mem_singleton] at hn
    rcases hn with hn | hn
    · exact Or.inl hn
    · subst hn
      refine Or.inr ?_
      have : uid ++ '/' :: uniqueFilenameOf uuid d.filename =
          (uid ++ ['/']) ++ uniqueFilenameOf uuid d.filename := by
        simp
      rw [this]
      exact startsWithStr_append _ _
  · -- GET stays inside the user's prefixes for canonical thumbnail names.
    intro pr hpr
    rw [getImagesHandler] at hpr
    obtain ⟨n, hn, rfl⟩ := List.mem_map.mp hpr
    rw [List.mem_filter] at hn
    obtain ⟨hn1, _⟩ := hn
    rw [List.mem_filter] at hn1
    obtain ⟨hnb, hnpre⟩ := hn1
    refine ⟨hnpre, fun hcanon => ?_⟩
    rcases hcanon n hnb hnpre with hstart | hnc
    · left
      show startsWithStr (replaceFirst (thumbMarker uid) (uid ++ ['/']) n)
        (uid ++ ['/']) = true
      rw [replaceFirst_of_startsWith _ hstart]
      exact startsWithStr_append _ _
    · right
      show startsWithStr (replaceFirst (thumbMarker uid) (uid ++ ['/']) n)
        (thumbDir uid) = true
      rw [replaceFirst_of_not_contains _ hnc]
      exact hnpre
  · -- DELETE targets both lie under the user's prefixes.
    constructor
    · have : uid ++ '/' :: basename p = (uid ++ ['/']) ++ basename p := by simp
      rw [deleteTargets, this]
      exact startsWithStr_append _ _
    · have : "thumbnails/".data ++ uid ++ "/thumb_".data ++ basename p =
          thumbDir uid ++ ("thumb_".data ++ basename p) := by
        rw [thumbDir]; simp
      rw [deleteTargets, this]
      exact startsWithStr_append _ _
  · -- Distinct slash-free ids other than `thumbnails` own disjoint prefixes.
    intro v n huv hu hv hut hvt h1 habs
    have hthumb : '/' ∉ "thumbnails".data := by decide
    rcases h1 with h1 | h1 <;> rcases habs with h2 | h2
    · exact huv ((firstSeg_of_startsWith hu h1).symm.trans
        (firstSeg_of_startsWith hv h2))
    · -- n under `uid/` and under `thumbnails/v/` forces uid = "thumbnails".
      have h2' : startsWithStr n ("thumbnails".data ++ ['/']) = true := by
        have : thumbDir v = ("thumbnails".data ++ ['/']) ++ (v ++ ['/']) := by
          rw [thumbDir]; simp
        rw [this] at h2
        exact startsWithStr_of_append_left h2
      exact hut ((firstSeg_of_startsWith hu h1).symm.trans
        (firstSeg_of_startsWith hthumb h2'))
    · have h1' : startsWithStr n ("thumbnails".data ++ ['/']) = true := by
        have : thumbDir uid = ("thumbnails".data ++ ['/']) ++ (uid ++ ['/']) := by
          rw [thumbDir]; simp
        rw [this] at h1
        exact startsWithStr_of_append_left h1
      exact hvt ((firstSeg_of_startsWith hv h2).symm.trans
        (firstSeg_of_startsWith hthumb h1'))
    · -- both under `thumbnails/…/`: the second segments must agree.
      have e1 : thumbDir uid = "thumbnails/".data ++ (uid ++ ['/']) := by
        rw [thumbDir]; simp
      have e2 : thumbDir v = "thumbnails/".data ++ (v ++ ['/']) := by
        rw [thumbDir]; simp
      rw [e1] at h1
      rw [e2] at h2
      have d1 := startsWithStr_drop_of_append h1
      have d2 := startsWithStr_drop_of_append h2
      exact huv ((firstSeg_of_startsWith hu d1).symm.trans
        (firstSeg_of_startsWith hv d2))

/-- Witness for the amended C2 on a canonical bucket with two tenants. -/
theorem c2_amended_isolation_witness :
    (({ thumbnailUrl :=
          { objectName := "thumbnails/u1/thumb_cat.png".data, action := .read,
            expires := 900000 },
        fullUrl :=
          { objectName := "u1/cat.png".data, action := .read,
            expires := 900000 } } : ImagePair) ∈
      getImagesHandler
        ["thumbnails/u1/thumb_cat.png".data, "u1/cat.png".data,
         "thumbnails/u2/thumb_dog.png".data] "u1".data 0) ∧
    (startsWithStr "u1/cat.png".data ("u1".data ++ ['/']) = true ∨
      startsWithStr "u1/cat.png".data (thumbDir "u1".data) = true) ∧
    ¬(startsWithStr "u1/cat.png".data ("u2".data ++ ['/']) = true ∨
      startsWithStr "u1/cat.png".data (thumbDir "u2".data) = true) := by
  have h := c2_amended_isolation
    ["thumbnails/u1/thumb_cat.png".data, "u1/cat.png".data,
     "thumbnails/u2/thumb_dog.png".data] "u1".data 0
    { filename := "cat.png".data, truncated := false,
      mimetype := "image/png".data } "id".data "cat.png".data
  refine ⟨by decide, ?_, ?_⟩
  · exact (h.2.1
      { thumbnailUrl :=
          { objectName := "thumbnails/u1/thumb_cat.png".data, action := .read,
            expires := 900000 },
        fullUrl :=
          { objectName := "u1/cat.png".data, action := .read,
            expires := 900000 } }
      (by decide)).2 (by decide)
  · exact h.2.2.2 "u2".data "u1/cat.png".data (by decide) (by decide)
      (by decide) (by decide) (by decide) (by decide)

theorem wsRun_append (s : WsState) (es1 es2 : List WsEvent) :
    wsRun s (es1 ++ es2) = wsRun (wsRun s es1) es2 := by
  induction es1 generalizing s with
  | nil => rfl
  | cons e es ih =>
    simp only [List.cons_append, wsRun]
    exact ih _

theorem wsValid_append (s : WsState) (es1 es2 : List WsEvent) :
    wsValid s (es1 ++ es2) =
      (wsValid s es1 && wsValid (wsRun s es1) es2) := by
  induction es1 generalizing s with
  | nil => simp [wsValid, wsRun]
  | cons e es ih =>
    simp only [List.cons_append, wsValid, wsRun]
    rw [show es.append es2 = es ++ es2 from rfl, ih, Bool.and_assoc]

/-- The set of fired timers only grows. -/
theorem mem_fired_wsStep {s : WsState} {k : Nat} (e : WsEvent)
    (h : k ∈ s.fired) : k ∈ (wsStep s e).fired := by
  cases e with
  | wsOpen c u => exact h
  | wsClose c =>
    cases hreg : regGet s.reg c <;> simp only [wsStep, hreg] <;> exact h
  | uploadDone u k' f => exact h
  | fire k' =>
    cases hp : pendGet s.pending k' with
    | none =>
      simp only [wsStep, hp]
      exact List.mem_cons_of_mem _ h
    | some uf =>
      obtain ⟨u, f⟩ := uf
      cases hm : mapGet s.connMap u <;> simp only [wsStep, hp, hm] <;>
        exact List.mem_cons_of_mem _ h

/-- A valid step never delivers a message for a timer that has already
fired: deliveries happen only at that timer's own (unique) fire event. -/
theorem mem_sent_wsStep {s : WsState} {e : WsEvent} {c k : Nat} {f : JStr}
    (hv : wsValidEvent s e = true) (hk : k ∈ s.fired)
    (hmem : (c, k, f) ∈ (wsStep s e).sent) : (c, k, f) ∈ s.sent := by
  cases e with
  | wsOpen c0 u => exact hmem
  | wsClose c0 =>
    cases hreg : regGet s.reg c0 <;> simp only [wsStep, hreg] at hmem <;>
      exact hmem
  | uploadDone u k0 f0 => exact hmem
  | fire k0 =>
    simp only [wsValidEvent, Bool.and_eq_true, Bool.not_eq_true',
      decide_eq_false_iff_not] at hv
    have hne : k0 ≠ k := fun heq => hv.2 (heq ▸ hk)
    cases hp : pendGet s.pending k0 with
    | none =>
      simp only [wsStep, hp] at hmem
      exact hmem
    | some uf =>
      obtain ⟨u, f0'⟩ := uf
      cases hm : mapGet s.connMap u with
      | none =>
        simp only [wsStep, hp, hm] at hmem
        exact hmem
      | some c0 =>
        simp only [wsStep, hp, hm, List.mem_cons] at hmem
        rcases hmem with heq | hmem
        · simp only [Prod.mk.injEq] at heq
          exact absurd heq.2.1.symm hne
        · exact hmem

/-- Once a timer has fired, no later valid trace delivers any further
message for it. -/
theorem no_sends_after_fired (k : Nat) :
    ∀ (es : List WsEvent) (s : WsState), k ∈ s.fired →
      wsValid s es = true →
      ∀ c f, (c, k, f) ∈ (wsRun s es).sent → (c, k, f) ∈ s.sent := by
  intro es
  induction es with
  | nil => exact fun s _ _ c f h => h
  | cons e es ih =>
    intro s hk hv c f hmem
    simp only [wsValid, Bool.and_eq_true] at hv
    exact mem_sent_wsStep hv.1 hk
      (ih (wsStep s e) (mem_fired_wsStep e hk) hv.2 c f hmem)

/-- C3: at every reachable state, a user id stored in the `connections` map
is bound to exactly the most recently opened, still-open `/ws` connection
registered under that id; an authenticated `/ws` open stores (and replaces)
the entry under the session user's id, and a close event removes the entry
under the id the connection was registered with. -/
theorem c3_connection_map (es : List WsEvent)
    (hv : wsValid wsInit es = true) :
    (∀ u c, mapGet (wsRun wsInit es).connMap u = some c →
      regGet (wsRun wsInit es).reg c = some u ∧
      recentConnOf (wsRun wsInit es).reg u = some c ∧
      c ∉ (wsRun wsInit es).closed) ∧
    (∀ c u, mapGet (wsStep (wsRun wsInit es) (.wsOpen c u)).connMap u = some c) ∧
    (∀ c u, regGet (wsRun wsInit es).reg c = some u →
      mapGet (wsStep (wsRun wsInit es) (.wsClose c)).connMap u = none) := by
  have inv := wsInv_run wsInv_init es hv
  refine ⟨inv.mapOk, ?_, ?_⟩
  · intro c u
    simp only [wsStep]
    exact mapGet_set_self _ _ _
  · intro c u hreg
    simp only [wsStep, hreg]
    exact mapGet_delete_self _ _

/-- Witness for C3: user `a` opens connection 1, then connection 2; the map
holds exactly the still-open, most recently opened connection 2. -/
theorem c3_connection_map_witness :
    wsValid wsInit [.wsOpen 1 ['a'], .wsOpen 2 ['a']] = true ∧
    (regGet (wsRun wsInit [.wsOpen 1 ['a'], .wsOpen 2 ['a']]).reg 2 =
        some ['a'] ∧
      recentConnOf (wsRun wsInit [.wsOpen 1 ['a'], .wsOpen 2 ['a']]).reg
        ['a'] = some 2 ∧
      2 ∉ (wsRun wsInit [.wsOpen 1 ['a'], .wsOpen 2 ['a']]).closed) :=
  ⟨by decide,
    (c3_connection_map [.wsOpen 1 ['a'], .wsOpen 2 ['a']] (by decide)).1
      ['a'] 2 (by decide)⟩

/-- C1: every delivered PROCESSING_COMPLETE message for an upload went to the
connection the map held under the uploader's session user id — a connection
registered under exactly that id, never one registered under a different
user's id. -/
theorem c1_fanout_keyed_by_session (es : List WsEvent) (c k : Nat) (f : JStr)
    (hv : wsValid wsInit es = true)
    (hm : (c, k, f) ∈ (wsRun wsInit es).sent) :
    ∃ u, pendGet (wsRun wsInit es).pending k = some (u, f) ∧
      regGet (wsRun wsInit es).reg c = some u :=
  ((wsInv_run wsInv_init es hv).sentOk c k f hm).2

/-- Witness for C1: user `a` opens connection 1, uploads (timer 7), and the
timer fires; the delivered message went to connection 1, registered under
`a`. -/
theorem c1_fanout_keyed_by_session_witness :
    wsValid wsInit
        [.wsOpen 1 ['a'], .uploadDone ['a'] 7 ['f'], .fire 7] = true ∧
    (1, 7, ['f']) ∈
      (wsRun wsInit
        [.wsOpen 1 ['a'], .uploadDone ['a'] 7 ['f'], .fire 7]).sent ∧
    ∃ u, pendGet (wsRun wsInit
        [.wsOpen 1 ['a'], .uploadDone ['a'] 7 ['f'], .fire 7]).pending 7 =
        some (u, ['f']) ∧
      regGet (wsRun wsInit
        [.wsOpen 1 ['a'], .uploadDone ['a'] 7 ['f'], .fire 7]).reg 1 =
        some u :=
  ⟨by decide, by decide,
    c1_fanout_keyed_by_session
      [.wsOpen 1 ['a'], .uploadDone ['a'] 7 ['f'], .fire 7] 1 7 ['f']
      (by decide) (by decide)⟩

/-- C4: if the uploader's user id is absent from the `connections` map at the
moment the upload's 5-second timer fires, the PROCESSING_COMPLETE message
for that upload is never delivered — not then and not at any later point of
the trace (there is no queue and no retry). -/
theorem c4_no_buffering (es1 es2 : List WsEvent) (k : Nat) (u f : JStr)
    (hv : wsValid wsInit (es1 ++ .fire k :: es2) = true)
    (hp : pendGet (wsRun wsInit es1).pending k = some (u, f))
    (habs : mapGet (wsRun wsInit es1).connMap u = none) :
    ∀ c f', (c, k, f') ∉ (wsRun wsInit (es1 ++ .fire k :: es2)).sent := by
  intro c f' hmem
  rw [wsValid_append] at hv
  simp only [Bool.and_eq_true] at hv
  obtain ⟨hv1, hv2⟩ := hv
  simp only [wsValid, Bool.and_eq_true] at hv2
  obtain ⟨hvf, hv3⟩ := hv2
  have hnotf : k ∉ (wsRun wsInit es1).fired := by
    simp only [wsValidEvent, Bool.and_eq_true, Bool.not_eq_true',
      decide_eq_false_iff_not] at hvf
    exact hvf.2
  have hstep : wsStep (wsRun wsInit es1) (.fire k) =
      { wsRun wsInit es1 with fired := k :: (wsRun wsInit es1).fired } := by
    simp only [wsStep, hp, habs]
  have hkf : k ∈ (wsStep (wsRun wsInit es1) (.fire k)).fired := by
    rw [hstep]
    exact List.mem_cons_self _ _
  rw [wsRun_append] at hmem
  simp only [wsRun] at hmem
  have hmem' : (c, k, f') ∈ (wsStep (wsRun wsInit es1) (.fire k)).sent :=
    no_sends_after_fired k es2 _ hkf hv3 c f' hmem
  rw [hstep] at hmem'
  exact hnotf ((wsInv_run wsInv_init es1 hv1).sentOk c k f' hmem').1

/-- Witness for C4: user `a` uploads (timer 3) without ever opening `/ws`;
when timer 3 fires nothing is delivered, then or later. -/
theorem c4_no_buffering_witness :
    wsValid wsInit [.uploadDone ['a'] 3 ['f'], .fire 3] = true ∧
    pendGet (wsRun wsInit [.uploadDone ['a'] 3 ['f']]).pending 3 =
      some (['a'], ['f']) ∧
    mapGet (wsRun wsInit [.uploadDone ['a'] 3 ['f']]).connMap ['a'] = none ∧
    (0, 3, ['f']) ∉
      (wsRun wsInit [.uploadDone ['a'] 3 ['f'], .fire 3]).sent :=
  ⟨by decide, by decide, by decide,
    c4_no_buffering [.uploadDone ['a'] 3 ['f']] [] 3 ['a'] ['f']
      (by decide) (by decide) (by decide) 0 ['f']⟩

end UploadApp

